import Mathlib

/-!
Verification of the rd-cast torrent-resolution and link-cache core.

This file gives a shallow embedding of the storage layer (`src/storage.js`),
the legacy single-cache worker app (`src/worker-combined.js`) and the Hono
app (`src/strmCache.js` application part), and proves the spec's testable
properties against it.

Modelling conventions:
* Timestamps are milliseconds since the epoch, as `Int` (JS `Date.now()` and
  `new Date(x).getTime()` values).  ISO strings stored in `generatedAt` are
  identified with their millisecond value.
* JS objects used as string-keyed maps are modelled as association lists
  `List (key, value)`; `obj[k] = v` replaces the binding for `k`.  Insertion
  order of the underlying JS object is not tracked; no verified property
  depends on enumeration order before the explicit sorts.
* `Array.prototype.sort(cmp)` (stable in modern engines) is modelled by
  `List.insertionSort` with the relation induced by the comparator.
* Network calls (`unrestrict`, the DMM delete API) are modelled as oracle
  arguments of type `Except`, carrying either the success payload or the
  upstream failure.
* Strings are processed as `List Char` where character-level parsing from the
  source (regex matching, URL path splitting) must be modelled; URL parsing
  of `new URL(s)` is modelled only for absolute `scheme://host/seg/...` URLs,
  which is the shape all verified properties use.
-/

namespace RdCast

/-- One cache record, as stored by both storage backends
(`storage.js`, the JSON object written per `linkId`). -/
structure LinkEntry where
  originalLink : String
  unrestrictedUrl : String
  generatedAt : Int
  filename : String
  manuallyAdded : Bool
  filesize : Nat
deriving Repr, DecidableEq

/-- The node filesystem cache: a JS object mapping linkId to entry. -/
abbrev StrmCache := List (String × LinkEntry)

/-- `7 * 24 * 60 * 60 * 1000` ms, the retention window (`SEVEN_DAYS_MS` /
`sevenDaysInSeconds` scaled to ms). -/
def sevenDaysMs : Int := 7 * 24 * 60 * 60 * 1000

/-- `48 * 60 * 60 * 1000` ms, the URL freshness window
(`FORTY_EIGHT_HOURS_MS` in `worker-combined.js`). -/
def fortyEightHoursMs : Int := 48 * 60 * 60 * 1000

/-- Lookup `cache[linkId]` in the association-list model. -/
def lookupEntry (cache : StrmCache) (k : String) : Option LinkEntry :=
  (cache.find? (fun p => p.1 == k)).map Prod.snd

/-- `cache[linkId] = entry`: replace any binding of `k` by the new one. -/
def setEntry (cache : StrmCache) (k : String) (e : LinkEntry) : StrmCache :=
  (k, e) :: cache.filter (fun p => !(p.1 == k))

/-- `nodeStorage._cleanupAndSaveStrmCache`: drop every entry whose age at
`now` is `>= 7` days (the source keeps entries with
`now - generatedAt < sevenDaysMs`). -/
def cleanupStrmCache (cache : StrmCache) (now : Int) : StrmCache :=
  cache.filter (fun p => now - p.2.generatedAt < sevenDaysMs)

/-- `nodeStorage.getStrmEntry`: `cache[linkId] || null`. -/
def nodeGetStrmEntry (cache : StrmCache) (linkId : String) : Option LinkEntry :=
  lookupEntry cache linkId

/-- `nodeStorage.addStrmEntry`: if the incoming write is not manual and a
manually added entry exists, only bump its `generatedAt`; otherwise replace
the entry wholesale.  Both branches then run the cleanup-and-save pass. -/
def nodeAddStrmEntry (cache : StrmCache) (linkId originalLink unrestrictedUrl filename : String)
    (manuallyAdded : Bool) (filesize : Nat) (now : Int) : StrmCache :=
  match lookupEntry cache linkId with
  | some existing =>
    if !manuallyAdded && existing.manuallyAdded then
      cleanupStrmCache (setEntry cache linkId { existing with generatedAt := now }) now
    else
      cleanupStrmCache
        (setEntry cache linkId ⟨originalLink, unrestrictedUrl, now, filename, manuallyAdded, filesize⟩) now
  | none =>
    cleanupStrmCache
      (setEntry cache linkId ⟨originalLink, unrestrictedUrl, now, filename, manuallyAdded, filesize⟩) now

/-- `nodeStorage.updateStrmUrl`: in-place URL refresh with `generatedAt = now`;
no-op when the entry is absent. -/
def nodeUpdateStrmUrl (cache : StrmCache) (linkId newUnrestrictedUrl : String) (now : Int) : StrmCache :=
  match lookupEntry cache linkId with
  | some e =>
    cleanupStrmCache
      (setEntry cache linkId { e with unrestrictedUrl := newUnrestrictedUrl, generatedAt := now }) now
  | none => cache

/-- `nodeStorage.getAllStrmEntries`: `Object.values(cache)` — note that the
source performs no pruning on this read path. -/
def nodeGetAllStrmEntries (cache : StrmCache) : List LinkEntry :=
  cache.map Prod.snd

/-- One Cloudflare KV row: the stored entry plus its native expiry instant
(`put(..., expirationTtl)` sets `expiresAt = now + ttl`). -/
structure KVRow where
  key : String
  value : LinkEntry
  expiresAt : Int
deriving Repr, DecidableEq

/-- The worker KV namespace `CAST_MAGNET_LINK`. -/
abbrev KVStore := List KVRow

/-- `env.CAST_MAGNET_LINK.get(linkId)`: expired rows are invisible. -/
def kvGet (store : KVStore) (k : String) (now : Int) : Option LinkEntry :=
  ((store.filter (fun r => now < r.expiresAt)).find? (fun r => r.key == k)).map KVRow.value

/-- `env.CAST_MAGNET_LINK.put(k, v, expirationTtl)`, TTL in ms here. -/
def kvPut (store : KVStore) (k : String) (v : LinkEntry) (ttlMs now : Int) : KVStore :=
  ⟨k, v, now + ttlMs⟩ :: store.filter (fun r => !(r.key == k))

/-- `workerStorage.addStrmEntry` (the KV implementation): keep a manually
added entry's payload on a passive write, bumping only `generatedAt`;
otherwise write the fresh entry.  Either way the TTL is 7 days. -/
def workerAddStrmEntry (store : KVStore) (linkId originalLink unrestrictedUrl filename : String)
    (manuallyAdded : Bool) (filesize : Nat) (now : Int) : KVStore :=
  let keepExisting : Option LinkEntry :=
    if !manuallyAdded then
      match kvGet store linkId now with
      | some e => if e.manuallyAdded then some e else none
      | none => none
    else none
  match keepExisting with
  | some e => kvPut store linkId { e with generatedAt := now } sevenDaysMs now
  | none =>
    kvPut store linkId ⟨originalLink, unrestrictedUrl, now, filename, manuallyAdded, filesize⟩
      sevenDaysMs now

/-- `workerStorage.updateStrmUrl`. -/
def workerUpdateStrmUrl (store : KVStore) (linkId newUnrestrictedUrl : String) (now : Int) : KVStore :=
  match kvGet store linkId now with
  | some e =>
    kvPut store linkId { e with unrestrictedUrl := newUnrestrictedUrl, generatedAt := now }
      sevenDaysMs now
  | none => store

/-- `workerStorage.getAllStrmEntries`: list all live keys and fetch each. -/
def workerGetAllStrmEntries (store : KVStore) (now : Int) : List LinkEntry :=
  (store.filter (fun r => now < r.expiresAt)).map KVRow.value

/-- Split a character list at every occurrence of `sep`
(`String.prototype.split` with a single-character separator). -/
def splitOnChar (sep : Char) : List Char → List (List Char)
  | [] => [[]]
  | c :: cs =>
    match splitOnChar sep cs with
    | [] => [[c]]
    | h :: t => if c = sep then [] :: h :: t else (c :: h) :: t

/-- Drop everything up to and including the first occurrence of the three
characters of a URL scheme separator; `none` when there is none (the model of
`new URL(s)` throwing for a non-absolute input). -/
def stripSchemeSep : List Char → Option (List Char)
  | ':' :: '/' :: '/' :: rest => some rest
  | _ :: cs => stripSchemeSep cs
  | [] => none

/-- `extractLinkId` (`worker-combined.js`): parse the link as a URL and
return the second path segment when the host is `real-debrid.com` and the
first segment is `d` (the path of `https://real-debrid.com/d/LINKID`);
`null` otherwise or when URL parsing fails. -/
def extractLinkId (rdLink : String) : Option String :=
  match stripSchemeSep rdLink.toList with
  | none => none
  | some hostAndPath =>
    match splitOnChar '/' hostAndPath with
    | [] => none
    | hostname :: pathTail =>
      match pathTail with
      | seg1 :: seg2 :: _ =>
        if hostname = "real-debrid.com".toList ∧ seg1 = ['d'] ∧ seg2 ≠ [] then
          some (String.mk seg2)
        else none
      | _ => none

/-- One entry of a torrent's file list as reported by the upstream API. -/
structure TorrentFile where
  id : Nat
  name : Option String
  path : Option String
  bytes : Option Nat
  size : Option Nat
  selected : Nat
deriving Repr, DecidableEq

/-- JS `a || b` for numeric fields: `0`, `null` and `undefined` are falsy. -/
def jsNumOr (a : Option Nat) (b : Nat) : Nat :=
  match a with
  | some n => if n = 0 then b else n
  | none => b

/-- JS `a || b` for string fields: the empty string is falsy. -/
def jsStrOr (a b : Option String) : Option String :=
  match a with
  | some s => if s = "" then b else some s
  | none => b

/-- `f.bytes || f.size || 0`, the effective file size used by auto-select. -/
def fileEffectiveSize (f : TorrentFile) : Nat :=
  jsNumOr f.bytes (jsNumOr f.size 0)

/-- `TWO_MB = 2 * 1024 * 1024` bytes. -/
def twoMB : Nat := 2 * 1024 * 1024

/-- `getAutoSelectFile` (identical in `worker-combined.js` and
`strmCache.js`): empty list yields nothing; a single file is always chosen;
otherwise choose the unique file strictly larger than 2 MiB, if exactly one
qualifies. -/
def getAutoSelectFile (files : List TorrentFile) : Option TorrentFile :=
  if files.isEmpty then none
  else if files.length = 1 then files.head?
  else
    let largeFiles := files.filter (fun f => twoMB < fileEffectiveSize f)
    if largeFiles.length = 1 then largeFiles.head? else none

/-- Outcome of the `waiting_files_selection` branch of `processMagnet`. -/
inductive SelectDecision where
  /-- Continue resolution with the auto-selected file
  (`processSelectedFile(..., fileToSelect.id, ...)`). -/
  | proceed (file : TorrentFile)
  /-- Return the selection form carrying the full file list
  (`PendingSelection`). -/
  | pending (files : List TorrentFile)
deriving Repr, DecidableEq

/-- The selection branch of `processMagnet` when the polled status is
`waiting_files_selection`. -/
def magnetSelectionStep (files : List TorrentFile) : SelectDecision :=
  match getAutoSelectFile files with
  | some f => .proceed f
  | none => .pending files

/-- The polled upstream torrent session (`rdClient.getTorrentInfo` result). -/
structure TorrentInfo where
  id : String
  status : String
  files : List TorrentFile
  links : List String
  hash : String
  filename : Option String
  bytes : Nat
deriving Repr, DecidableEq

/-- The observable effects of one READY-path run of `processMagnet` /
`processSelectedFile`. -/
structure ReadyReport where
  /-- The link handed to `unrestrictLink` (`torrentInfo.links[0]`). -/
  unrestrictedLink : String
  /-- The `ip` argument passed to `unrestrictLink` (`none` when omitted). -/
  unrestrictIp : Option String
  /-- The `(linkId, manuallyAdded)` of a `addStrmEntry` call, if one happened. -/
  cacheWrite : Option (String × Bool)
  /-- The torrent id handed to `deleteTorrent`, if called. -/
  deletedTorrentId : Option String
  /-- The filename shown on the result page. -/
  reportFilename : Option String
  /-- The byte size shown on the result page. -/
  reportBytes : Nat
deriving Repr, DecidableEq

/-- Result of the post-poll part of a `processMagnet` run. -/
inductive MagnetResult where
  /-- The file-selection page was returned. -/
  | pending (files : List TorrentFile) (torrentId : String) (title : Option String)
  /-- `throw new Error(msg)`. -/
  | failed (msg : String)
  /-- The READY path completed with the recorded effects. -/
  | ready (r : ReadyReport)
deriving Repr, DecidableEq

/-- The READY tail of `processMagnet` in `worker-combined.js` (after the
`waiting_files_selection` branch was not taken): fail without links, else
unrestrict the first link with no IP argument, write the cache entry with
`manuallyAdded = true` when a link id can be extracted, delete the torrent
and report the torrent's aggregate filename and bytes. -/
def workerMagnetReady (info : TorrentInfo) : MagnetResult :=
  if info.links.isEmpty then .failed "No links available for torrent"
  else
    let originalLink := info.links.headD ""
    .ready
      { unrestrictedLink := originalLink
        unrestrictIp := none
        cacheWrite := (extractLinkId originalLink).map (fun lid => (lid, true))
        deletedTorrentId := some info.id
        reportFilename := info.filename
        reportBytes := info.bytes }

/-- The READY tail of `processMagnet` in `strmCache.js`: fail without links,
else unrestrict the first link passing the caller's public IP when available,
read the selected file's name and size (falling back to the torrent
aggregates), delete the torrent and render the result page.  No cache write
occurs on this path. -/
def honoMagnetReady (info : TorrentInfo) (userIP : Option String) : MagnetResult :=
  if info.links.isEmpty then .failed "No links available for torrent"
  else
    let originalLink := info.links.headD ""
    let selectedFile := info.files.find? (fun f => f.selected = 1)
    let filename :=
      match selectedFile with
      | some f => jsStrOr f.path f.name
      | none => info.filename
    let size :=
      match selectedFile with
      | some f => jsNumOr f.bytes (jsNumOr f.size 0)
      | none => info.bytes
    .ready
      { unrestrictedLink := originalLink
        unrestrictIp := userIP
        cacheWrite := none
        deletedTorrentId := some info.id
        reportFilename := filename
        reportBytes := size }

/-- One entry of the Real-Debrid download-history feed
(`rdClient.getDownloadsList` item); `generated` is its timestamp in ms. -/
structure RdDownload where
  id : Nat
  link : String
  download : String
  filename : String
  filesize : Nat
  generated : Int
deriving Repr, DecidableEq

/-- The `limit` passed to `getDownloadsList` by the download listings
(`getRealDebridDownloads` / `getRealDebridWebDAVFiles`). -/
def rdDownloadsFetchLimit : Nat := 20

/-- `downloads.sort((a, b) => new Date(b.generated) - new Date(a.generated))`:
a stable sort placing larger `generated` first. -/
def sortDownloadsDesc (downloads : List RdDownload) : List RdDownload :=
  downloads.insertionSort (fun a b => b.generated ≤ a.generated)

/-- The dedupe-and-cap loop shared by `getRealDebridDownloads` and
`getRealDebridWebDAVFiles`: keep the first occurrence of each id, stop once
10 unique items are collected.  `seen`/`count` mirror `seenIds` and
`uniqueDownloads.length`. -/
def dedupeDownloads : List RdDownload → List Nat → Nat → List RdDownload
  | [], _, _ => []
  | d :: rest, seen, count =>
    if d.id ∈ seen then dedupeDownloads rest seen count
    else if 10 ≤ count + 1 then [d]
    else d :: dedupeDownloads rest (d.id :: seen) (count + 1)

/-- A home-page display item produced by `getRealDebridDownloads`. -/
structure RdDisplayItem where
  filename : String
  filesize : Nat
  downloadUrl : String
deriving Repr, DecidableEq

/-- `getRealDebridDownloads` (`strmCache.js`): sort the fetched feed
descending by generation time, deduplicate by id keeping the first (hence
most recent) occurrence, cap at 10 and format for display. -/
def getRealDebridDownloads (feed : List RdDownload) : List RdDisplayItem :=
  let uniqueDownloads := dedupeDownloads (sortDownloadsDesc feed) [] 0
  uniqueDownloads.map (fun d => ⟨d.filename, d.filesize, d.download⟩)

/-- A virtual `.strm` file entry as composed for WebDAV listings. -/
structure WebDavFile where
  name : String
  content : String
  size : Nat
  modified : Int
deriving Repr, DecidableEq

/-- One step of filling the by-filename `Map`: a later item replaces an
earlier one of the same name only when strictly more recently modified. -/
def insertByName (acc : List WebDavFile) (f : WebDavFile) : List WebDavFile :=
  if acc.any (fun g => g.name == f.name) then
    acc.map (fun g => if g.name == f.name then (if g.modified < f.modified then f else g) else g)
  else acc ++ [f]

/-- The directory-materialization dedupe: by synthetic filename, keeping the
most recently modified instance. -/
def dedupeByNameKeepRecent (files : List WebDavFile) : List WebDavFile :=
  files.foldl insertByName []

/-- `getRealDebridWebDAVFiles` (`strmCache.js`): same sort, id-dedupe and cap
as the display listing, then build `.strm` file objects (content is the
download URL, size its string length) and deduplicate by filename. -/
def getRealDebridWebDAVFiles (feed : List RdDownload) : List WebDavFile :=
  let uniqueDownloads := dedupeDownloads (sortDownloadsDesc feed) [] 0
  let fileObjs := uniqueDownloads.map (fun d =>
    ({ name := d.filename ++ ".strm"
       content := d.download
       size := d.download.length
       modified := d.generated } : WebDavFile))
  dedupeByNameKeepRecent fileObjs

/-- One entry of the DMM casted-links feed (`listCasted` item);
`updatedAt` is `none` when the field is missing or falsy. -/
structure DmmLink where
  url : String
  filename : Option String
  hash : String
  imdbId : String
  updatedAt : Option Int
deriving Repr, DecidableEq

/-- One formatted casted link as produced by `getCastedLinks`. -/
structure CastedItem where
  url : String
  filename : String
  strmFilename : String
  updatedAt : Int
  imdbId : String
  hash : String
deriving Repr, DecidableEq

/-- The fallback title extraction: last path segment of the entry's URL
(`new URL(url).pathname.split('/').pop()`), or `Unknown` when the URL does
not parse or the segment is empty.  (`decodeURIComponent` is not modelled:
titles in the verified properties are plain.) -/
def deriveFilenameFromUrl (url : String) : String :=
  match stripSchemeSep url.toList with
  | none => "Unknown"
  | some hostAndPath =>
    match splitOnChar '/' hostAndPath with
    | [] => "Unknown"
    | _ :: pathTail =>
      let last := pathTail.getLastD []
      if last = [] then "Unknown" else String.mk last

/-- `let filename = link.filename; if (!filename || filename === 'Unknown')`
then derive it from the URL. -/
def castedTitle (l : DmmLink) : String :=
  match l.filename with
  | some f => if f = "" ∨ f = "Unknown" then deriveFilenameFromUrl l.url else f
  | none => deriveFilenameFromUrl l.url

/-- The per-entry formatting step of `getCastedLinks`: the synthetic
filename embeds the hash and imdb id between brace-delimited markers. -/
def formatCasted (l : DmmLink) : CastedItem :=
  { url := if l.url = "" then "#" else l.url
    filename := castedTitle l
    strmFilename :=
      castedTitle l ++ "\x7bhash-" ++ l.hash ++ "\x7d\x7bimdb-" ++ l.imdbId ++ "\x7d.strm"
    updatedAt := l.updatedAt.getD 0
    imdbId := l.imdbId
    hash := l.hash }

/-- Does a feed entry pass the last-7-days filter of `getCastedLinks`?
Entries without a (truthy) `updatedAt` are dropped; otherwise the update
time must be at or after `now - 7 days`. -/
def castedQualifies (l : DmmLink) (now : Int) : Bool :=
  match l.updatedAt with
  | some t => now - sevenDaysMs ≤ t
  | none => false

/-- `getCastedLinks` (`strmCache.js`): filter the feed to entries updated in
the last 7 days, sort descending by update time and format each entry. -/
def getCastedLinks (feed : List DmmLink) (now : Int) : List CastedItem :=
  let filteredLinks := feed.filter (fun l => castedQualifies l now)
  let sorted := filteredLinks.insertionSort
    (fun a b => b.updatedAt.getD 0 ≤ a.updatedAt.getD 0)
  sorted.map formatCasted

/-- The characters of the hash marker opener (open brace, `hash-`). -/
def hashTag : List Char := "\x7bhash-".toList

/-- The characters of the imdb marker opener (open brace, `imdb-`). -/
def imdbTag : List Char := "\x7bimdb-".toList

/-- The characters of the required tail: close brace, `.strm`. -/
def closeStrmTail : List Char := "\x7d.strm".toList

/-- Attempt to match the whole remaining text against the delete-filename
regex body, anchored at the end: `hashTag`, then one or more non-close-brace
characters, a close brace, `imdbTag`, again one or more non-close-brace
characters, and exactly `closeStrmTail`.  The greedy `[^...]+` groups are
exactly `takeWhile`: a shorter match would leave a non-brace character where
the pattern demands the closing brace. -/
def matchDeletePattern (cs : List Char) : Option (List Char × List Char) :=
  if cs.take 6 = hashTag then
    let afterHashTag := cs.drop 6
    let hashChars := afterHashTag.takeWhile (fun c => c ≠ '\x7d')
    match afterHashTag.dropWhile (fun c => c ≠ '\x7d') with
    | '\x7d' :: afterBrace =>
      if afterBrace.take 6 = imdbTag then
        let afterImdbTag := afterBrace.drop 6
        let imdbChars := afterImdbTag.takeWhile (fun c => c ≠ '\x7d')
        if hashChars ≠ [] ∧ imdbChars ≠ [] ∧
            afterImdbTag.dropWhile (fun c => c ≠ '\x7d') = closeStrmTail then
          some (hashChars, imdbChars)
        else none
      else none
    | _ => none
  else none

/-- The regex search: try the anchored match at each start position from the
left, as the engine does. -/
def scanDeletePattern : List Char → Option (List Char × List Char)
  | [] => none
  | c :: rest =>
    match matchDeletePattern (c :: rest) with
    | some r => some r
    | none => scanDeletePattern rest

/-- `filename.match(/\x7bhash-([^\x7d]+)\x7d\x7bimdb-([^\x7d]+)\x7d\.strm$/)`
from the DELETE `/dmmcast/*` handler, yielding the two capture groups. -/
def parseDmmDeleteFilename (filename : String) : Option (String × String) :=
  (scanDeletePattern filename.toList).map (fun p => (String.mk p.1, String.mk p.2))

/-- The HTTP outcome of the DELETE `/dmmcast/*` handler. -/
inductive DmmDeleteResult where
  /-- `c.text('Invalid filename format - ...', 400)`. -/
  | invalidFormat (body : String)
  /-- `new Response(null, 204)`. -/
  | noContent
  /-- `c.text('Delete failed: ' + error, response.status)`. -/
  | upstreamError (status : Nat) (body : String)
deriving Repr, DecidableEq

/-- The HTTP status of each `DmmDeleteResult`. -/
def dmmDeleteStatus : DmmDeleteResult → Nat
  | .invalidFormat _ => 400
  | .noContent => 204
  | .upstreamError status _ => status

/-- One run of the DELETE handler: the response plus the `(hash, imdbId)`
forwarded to the DMM delete API, when that call happened. -/
structure DmmDeleteRun where
  result : DmmDeleteResult
  upstreamCall : Option (String × String)
deriving Repr, DecidableEq

/-- The DELETE `/dmmcast/*` handler (`strmCache.js`): reject filenames that
do not match the embedding pattern without calling upstream; otherwise
forward the decoded hash and imdb id and translate the upstream outcome. -/
def deleteDmmCast (filename : String) (upstream : Except (Nat × String) Unit) : DmmDeleteRun :=
  match parseDmmDeleteFilename filename with
  | none =>
    ⟨.invalidFormat "Invalid filename format - missing hash or imdbId encoding", none⟩
  | some (hash, imdbId) =>
    match upstream with
    | .ok _ => ⟨.noContent, some (hash, imdbId)⟩
    | .error (status, body) =>
      ⟨.upstreamError status ("Delete failed: " ++ body), some (hash, imdbId)⟩

/-- The body served by the GET `/strm/:linkId` handler. -/
inductive StrmResponse where
  /-- `c.text('Download link not found in cache', 404)`. -/
  | notFound
  /-- `c.redirect(url, 302)`. -/
  | redirect (url : String)
deriving Repr, DecidableEq

/-- One run of GET `/strm/:linkId`: the response, whether a refresh through
`unrestrictLink` was attempted, and the cache after the run. -/
structure StrmServeRun where
  response : StrmResponse
  refreshAttempted : Bool
  cacheAfter : StrmCache
deriving Repr, DecidableEq

/-- GET `/strm/:linkId` (`worker-combined.js`, node storage): a missing
entry is a 404; an entry no older than 48 hours is served as is; an older
entry triggers a refresh, updating the cache and serving the new URL on
success, serving the stale URL unchanged on failure. -/
def strmGetHandler (cache : StrmCache) (linkId : String) (now : Int)
    (unrestrictOutcome : Except String String) : StrmServeRun :=
  match nodeGetStrmEntry cache linkId with
  | none => ⟨.notFound, false, cache⟩
  | some cacheEntry =>
    let age := now - cacheEntry.generatedAt
    if fortyEightHoursMs < age then
      match unrestrictOutcome with
      | .ok newUnrestrictedUrl =>
        ⟨.redirect newUnrestrictedUrl, true, nodeUpdateStrmUrl cache linkId newUnrestrictedUrl now⟩
      | .error _ => ⟨.redirect cacheEntry.unrestrictedUrl, true, cache⟩
    else ⟨.redirect cacheEntry.unrestrictedUrl, false, cache⟩

/-- A file entry of the legacy `/webdav/` listing; `linkId` is the id the
`.strm` URL points at and `modified` the entry's `generatedAt`. -/
structure LegacyDavFile where
  name : String
  linkId : String
  modified : Int
deriving Repr, DecidableEq

/-- The `limit` passed to `getDownloadsList` by `getWebDAVFiles`. -/
def legacyDavFetchLimit : Nat := 3

/-- The observed-feed write pass of `getWebDAVFiles`: walk the sorted
downloads, cache each one passively (`manuallyAdded = false`) and collect
the extracted link ids (`recent3LinkIds`). -/
def legacyDavWriteStep (st : StrmCache × List String) (d : RdDownload) (now : Int) :
    StrmCache × List String :=
  match extractLinkId d.link with
  | some lid => (nodeAddStrmEntry st.1 lid d.link d.download d.filename false 0 now, lid :: st.2)
  | none => st

/-- The cache and recent-id set after the write pass of `getWebDAVFiles`. -/
def legacyDavCacheAndRecents (cache : StrmCache) (downloads : List RdDownload) (now : Int) :
    StrmCache × List String :=
  (sortDownloadsDesc downloads).foldl (fun st d => legacyDavWriteStep st d now) (cache, [])

/-- The visibility rule of `getWebDAVFiles`: in the recent-3 set, or
manually added and strictly less than 7 days old. -/
def legacyDavVisible (recentIds : List String) (e : LinkEntry) (lid : String) (now : Int) : Bool :=
  lid ∈ recentIds || (e.manuallyAdded && now - e.generatedAt < sevenDaysMs)

/-- The file object built for a visible entry (URL construction with the
configured credentials is abstracted to the link id it embeds). -/
def legacyDavFileOf (e : LinkEntry) (lid : String) : LegacyDavFile :=
  ⟨e.filename ++ ".strm", lid, e.generatedAt⟩

/-- `getWebDAVFiles` (`worker-combined.js`, node storage): cache the fetched
downloads passively, then list every cached entry whose link id is
extractable and visible, sorted by `generatedAt` descending. -/
def getWebDAVFiles (cache : StrmCache) (downloads : List RdDownload) (now : Int) :
    List LegacyDavFile :=
  let st := legacyDavCacheAndRecents cache downloads now
  let files := (nodeGetAllStrmEntries st.1).filterMap (fun e =>
    match extractLinkId e.originalLink with
    | none => none
    | some lid => if legacyDavVisible st.2 e lid now then some (legacyDavFileOf e lid) else none)
  files.insertionSort (fun a b => b.modified ≤ a.modified)

/-! ### Helper lemmas -/

theorem lookupEntry_cons_self (l : StrmCache) (k : String) (v : LinkEntry) :
    lookupEntry ((k, v) :: l) k = some v := by
  simp [lookupEntry, List.find?]

theorem lookupEntry_cleanup_fresh (l : StrmCache) (k : String) (v : LinkEntry) (now : Int)
    (h : now - v.generatedAt < sevenDaysMs) :
    lookupEntry (cleanupStrmCache ((k, v) :: l) now) k = some v := by
  unfold cleanupStrmCache
  rw [List.filter_cons_of_pos (by simpa using h)]
  exact lookupEntry_cons_self _ k v

theorem sevenDaysMs_pos : (0 : Int) < sevenDaysMs := by decide

theorem mem_kvPut (store : KVStore) (k : String) (v : LinkEntry) (ttlMs now : Int) (r : KVRow) :
    r ∈ kvPut store k v ttlMs now → r = ⟨k, v, now + ttlMs⟩ ∨ r ∈ store := by
  intro hr
  rcases List.mem_cons.mp hr with h | h
  · exact Or.inl h
  · exact Or.inr (List.mem_of_mem_filter h)

theorem kvGet_kvPut_self (store : KVStore) (k : String) (v : LinkEntry) (ttlMs now : Int)
    (h : now < now + ttlMs) :
    kvGet (kvPut store k v ttlMs now) k now = some v := by
  unfold kvGet kvPut
  rw [List.filter_cons_of_pos (by simpa using h)]
  simp [List.find?]

/-! ### C1 — passive writes never overwrite a manual entry's payload -/

/-- C1: for both storage implementations, an `addStrmEntry` call with
`manuallyAdded = false` against an existing `manuallyAdded = true` entry
leaves `originalLink`, `unrestrictedUrl`, `filename`, `filesize` and the
`manuallyAdded` flag untouched, and only sets `generatedAt` to the current
time. -/
theorem passive_write_preserves_manual_entry
    (nodeCache : StrmCache) (store : KVStore) (lid ol uu fn : String) (fs : Nat) (now : Int)
    (eNode eKv : LinkEntry)
    (hNode : lookupEntry nodeCache lid = some eNode) (hmNode : eNode.manuallyAdded = true)
    (hKv : kvGet store lid now = some eKv) (hmKv : eKv.manuallyAdded = true) :
    lookupEntry (nodeAddStrmEntry nodeCache lid ol uu fn false fs now) lid
      = some { eNode with generatedAt := now }
    ∧ kvGet (workerAddStrmEntry store lid ol uu fn false fs now) lid now
      = some { eKv with generatedAt := now } := by
  constructor
  · unfold nodeAddStrmEntry
    rw [hNode]
    simp only [hmNode, Bool.not_false, Bool.true_and, if_true]
    unfold setEntry
    exact lookupEntry_cleanup_fresh _ lid _ now (by simp [sevenDaysMs_pos])
  · unfold workerAddStrmEntry
    rw [hKv]
    simp only [hmKv, Bool.not_false, if_true]
    exact kvGet_kvPut_self _ lid _ _ now (by simp [sevenDaysMs_pos])

/-- C1 witness: a concrete manual entry in each backend survives a passive
write with its payload intact and its timestamp bumped. -/
theorem passive_write_preserves_manual_entry_witness :
    lookupEntry
        (nodeAddStrmEntry [("L1", ⟨"https://real-debrid.com/d/L1", "oldUrl", 0, "movie.mkv", true, 5⟩)]
          "L1" "newLink" "newUrl" "other.mkv" false 9 1000) "L1"
      = some ⟨"https://real-debrid.com/d/L1", "oldUrl", 1000, "movie.mkv", true, 5⟩
    ∧ kvGet
        (workerAddStrmEntry [⟨"L1", ⟨"https://real-debrid.com/d/L1", "oldUrl", 0, "movie.mkv", true, 5⟩, 604800000⟩]
          "L1" "newLink" "newUrl" "other.mkv" false 9 1000) "L1" 1000
      = some ⟨"https://real-debrid.com/d/L1", "oldUrl", 1000, "movie.mkv", true, 5⟩ :=
  passive_write_preserves_manual_entry
    [("L1", ⟨"https://real-debrid.com/d/L1", "oldUrl", 0, "movie.mkv", true, 5⟩)]
    [⟨"L1", ⟨"https://real-debrid.com/d/L1", "oldUrl", 0, "movie.mkv", true, 5⟩, 604800000⟩]
    "L1" "newLink" "newUrl" "other.mkv" 9 1000
    ⟨"https://real-debrid.com/d/L1", "oldUrl", 0, "movie.mkv", true, 5⟩
    ⟨"https://real-debrid.com/d/L1", "oldUrl", 0, "movie.mkv", true, 5⟩
    (by decide) (by decide) (by decide) (by decide)

/-! ### C9 — a single-file list is always auto-selected -/

/-- C9: `getAutoSelectFile` on a one-element file list returns that file
regardless of its size, so resolution proceeds without a selection form. -/
theorem single_file_always_autoselected (f : TorrentFile) :
    getAutoSelectFile [f] = some f ∧ magnetSelectionStep [f] = .proceed f := by
  constructor
  · simp [getAutoSelectFile]
  · simp [magnetSelectionStep, getAutoSelectFile]

/-! ### C2 — the auto-select policy -/

/-- C2 counterexample: a single file of 1 MiB — zero files exceed 2 MiB,
yet `resolve` does not return the selection form: the lone file is
auto-selected. -/
theorem autoselect_single_small_file_counterexample :
    (([⟨0, some "a.mkv", none, some 1048576, none, 0⟩] : List TorrentFile).filter
        (fun f => twoMB < fileEffectiveSize f)).length = 0
    ∧ magnetSelectionStep [⟨0, some "a.mkv", none, some 1048576, none, 0⟩]
        ≠ .pending [⟨0, some "a.mkv", none, some 1048576, none, 0⟩] := by
  decide

/-- C2 (amended): when exactly one file exceeds 2 MiB resolution always
continues with that file; when zero or at least two files exceed 2 MiB and
the list does not consist of exactly one file, resolve returns the pending
selection with the full file list (a one-element list is auto-selected
unconditionally — see the counterexample and C9). -/
theorem autoselect_policy :
    (∀ (files : List TorrentFile) (g : TorrentFile),
       files.filter (fun f => twoMB < fileEffectiveSize f) = [g] →
       magnetSelectionStep files = .proceed g)
    ∧ (∀ files : List TorrentFile, 2 ≤ files.length →
       (files.filter (fun f => twoMB < fileEffectiveSize f)).length ≠ 1 →
       magnetSelectionStep files = .pending files)
    ∧ magnetSelectionStep [] = .pending [] := by
  refine ⟨?_, ?_, by simp [magnetSelectionStep, getAutoSelectFile]⟩
  · intro files g hfilter
    match files with
    | [] => simp at hfilter
    | [a] =>
      have ha : a = g := by
        by_cases hla : twoMB < fileEffectiveSize a
        · simpa [hla] using hfilter
        · simp [hla] at hfilter
      simp [magnetSelectionStep, getAutoSelectFile, ha]
    | a :: b :: rest =>
      simp only [magnetSelectionStep, getAutoSelectFile, List.isEmpty_cons, List.length_cons,
        if_false]
      rw [hfilter]
      simp
  · intro files hlen hcount
    match files with
    | [] => simp at hlen
    | [a] => simp at hlen
    | a :: b :: rest =>
      simp only [magnetSelectionStep, getAutoSelectFile, List.isEmpty_cons, List.length_cons]
      rw [if_neg (by simp), if_neg (by omega), if_neg hcount]

/-- C2 witness: with two files of 2.5 MiB and 1 MiB the large one is chosen;
with two files both of 2.5 MiB the selection form carries both. -/
theorem autoselect_policy_witness :
    magnetSelectionStep
        [⟨1, some "big.mkv", none, some 2621440, none, 0⟩,
         ⟨2, some "small.srt", none, some 1048576, none, 0⟩]
      = .proceed ⟨1, some "big.mkv", none, some 2621440, none, 0⟩
    ∧ magnetSelectionStep
        [⟨1, some "big1.mkv", none, some 2621440, none, 0⟩,
         ⟨2, some "big2.mkv", none, some 2621440, none, 0⟩]
      = .pending
        [⟨1, some "big1.mkv", none, some 2621440, none, 0⟩,
         ⟨2, some "big2.mkv", none, some 2621440, none, 0⟩] :=
  ⟨autoselect_policy.1 _ _ (by decide), autoselect_policy.2.1 _ (by decide) (by decide)⟩

/-! ### C3 — retention pruning of `listAll` -/

/-- The TTL invariant every reachable worker KV store satisfies: a row never
outlives its entry's `generatedAt` by more than the retention window. -/
def kvTTLWithinRetention (store : KVStore) : Prop :=
  ∀ r ∈ store, r.expiresAt ≤ r.value.generatedAt + sevenDaysMs

/-- C3 counterexample: the node `getAllStrmEntries` does no pruning, so a
call 8 days after an entry was generated still returns it — its age exceeds
the 7-day retention window. -/
theorem node_listAll_stale_counterexample :
    (nodeGetAllStrmEntries [("L1", ⟨"https://real-debrid.com/d/L1", "u", 0, "f", false, 0⟩)]).any
      (fun e => sevenDaysMs < 691200000 - e.generatedAt) = true := by
  decide

/-- C3 (amended): the worker implementation never returns an entry older
than 7 days — KV expiry enforces it, since every write stores
`generatedAt = now` with a 7-day TTL (the TTL invariant is preserved by both
mutations).  The node implementation prunes only while writing: immediately
after `addStrmEntry`, or after an `updateStrmUrl` that found its entry, no
stored entry is 7 days old or older, but `getAllStrmEntries` itself returns
the stored entries unpruned (see the counterexample). -/
theorem retention_pruning :
    (∀ (store : KVStore) (now : Int), kvTTLWithinRetention store →
       ∀ e ∈ workerGetAllStrmEntries store now, now - e.generatedAt < sevenDaysMs)
    ∧ (∀ (store : KVStore) (lid ol uu fn : String) (ma : Bool) (fs : Nat) (now : Int),
       kvTTLWithinRetention store →
       kvTTLWithinRetention (workerAddStrmEntry store lid ol uu fn ma fs now)
       ∧ ∀ nu : String, kvTTLWithinRetention (workerUpdateStrmUrl store lid nu now))
    ∧ (∀ (cache : StrmCache) (lid ol uu fn : String) (ma : Bool) (fs : Nat) (now : Int),
       ∀ e ∈ nodeGetAllStrmEntries (nodeAddStrmEntry cache lid ol uu fn ma fs now),
       now - e.generatedAt < sevenDaysMs)
    ∧ (∀ (cache : StrmCache) (lid nu : String) (now : Int) (e₀ : LinkEntry),
       lookupEntry cache lid = some e₀ →
       ∀ e ∈ nodeGetAllStrmEntries (nodeUpdateStrmUrl cache lid nu now),
       now - e.generatedAt < sevenDaysMs)
    ∧ (∀ cache : StrmCache, nodeGetAllStrmEntries cache = cache.map Prod.snd) := by
  have hclean : ∀ (x : StrmCache) (now : Int),
      ∀ e ∈ nodeGetAllStrmEntries (cleanupStrmCache x now), now - e.generatedAt < sevenDaysMs := by
    intro x now e he
    rcases List.mem_map.mp he with ⟨p, hp, rfl⟩
    have := List.of_mem_filter hp
    simpa using this
  refine ⟨?_, ?_, ?_, ?_, fun _ => rfl⟩
  · intro store now hinv e he
    rcases List.mem_map.mp he with ⟨r, hr, rfl⟩
    have hlive : now < r.expiresAt := by simpa using List.of_mem_filter hr
    have hbound := hinv r (List.mem_of_mem_filter hr)
    omega
  · intro store lid ol uu fn ma fs now hinv
    have hput : ∀ (v : LinkEntry), v.generatedAt = now →
        kvTTLWithinRetention (kvPut store lid v sevenDaysMs now) := by
      intro v hv r hr
      rcases mem_kvPut store lid v sevenDaysMs now r hr with rfl | hmem
      · simp [hv]
      · exact hinv r hmem
    constructor
    · unfold workerAddStrmEntry
      cases hk : (if !ma then
          match kvGet store lid now with
          | some e => if e.manuallyAdded then some e else none
          | none => none
        else none) with
      | none => simpa [hk] using hput _ rfl
      | some e => simpa [hk] using hput { e with generatedAt := now } rfl
    · intro nu
      unfold workerUpdateStrmUrl
      cases hk : kvGet store lid now with
      | none => simpa [hk] using hinv
      | some e => simpa [hk] using hput { e with unrestrictedUrl := nu, generatedAt := now } rfl
  · intro cache lid ol uu fn ma fs now e he
    unfold nodeAddStrmEntry at he
    split at he
    · split at he <;> exact hclean _ now e he
    · exact hclean _ now e he
  · intro cache lid nu now e₀ h₀ e he
    unfold nodeUpdateStrmUrl at he
    split at he
    · exact hclean _ now e he
    · rename_i heq
      rw [h₀] at heq
      exact Option.noConfusion heq

/-- C3 witness: concrete runs of both halves — KV `listAll` under the TTL
invariant only returns fresh entries, and a node write prunes a stale
sibling entry. -/
theorem retention_pruning_witness :
    (∀ e ∈ workerGetAllStrmEntries
        [⟨"L1", ⟨"https://real-debrid.com/d/L1", "u", 0, "f", false, 0⟩, 604800000⟩] 600000000,
      (600000000 : Int) - e.generatedAt < sevenDaysMs)
    ∧ (∀ e ∈ nodeGetAllStrmEntries
        (nodeAddStrmEntry [("L1", ⟨"https://real-debrid.com/d/L1", "u", 0, "f", false, 0⟩)]
          "L2" "https://real-debrid.com/d/L2" "u2" "g" true 0 691200000),
      (691200000 : Int) - e.generatedAt < sevenDaysMs) :=
  ⟨retention_pruning.1 _ 600000000 (by unfold kvTTLWithinRetention; decide),
   retention_pruning.2.2.1 _ "L2" "https://real-debrid.com/d/L2" "u2" "g" true 0 691200000⟩

/-! ### C4 — 48-hour staleness boundary of GET /strm/:linkId -/

/-- C4: a cached entry whose age is at most 48 hours is served unchanged
with no refresh attempt; strictly past 48 hours a refresh is attempted — on
success the cache entry's URL is updated (timestamp bumped) and the new URL
served, on failure the pre-refresh URL is served with the cache untouched. -/
theorem strm_staleness_refresh (cache : StrmCache) (lid : String) (now : Int)
    (e : LinkEntry) (outcome : Except String String)
    (hget : nodeGetStrmEntry cache lid = some e) :
    (now - e.generatedAt ≤ fortyEightHoursMs →
       strmGetHandler cache lid now outcome = ⟨.redirect e.unrestrictedUrl, false, cache⟩)
    ∧ (∀ u, fortyEightHoursMs < now - e.generatedAt → outcome = .ok u →
       strmGetHandler cache lid now outcome
         = ⟨.redirect u, true, nodeUpdateStrmUrl cache lid u now⟩
       ∧ lookupEntry (nodeUpdateStrmUrl cache lid u now) lid
         = some { e with unrestrictedUrl := u, generatedAt := now })
    ∧ (∀ msg, fortyEightHoursMs < now - e.generatedAt → outcome = .error msg →
       strmGetHandler cache lid now outcome = ⟨.redirect e.unrestrictedUrl, true, cache⟩) := by
  have hlook : lookupEntry cache lid = some e := hget
  refine ⟨?_, ?_, ?_⟩
  · intro hfresh
    simp only [strmGetHandler, hget]
    rw [if_neg (not_lt.mpr hfresh)]
  · intro u hstale hok
    subst hok
    constructor
    · simp only [strmGetHandler, hget]
      rw [if_pos hstale]
    · unfold nodeUpdateStrmUrl
      rw [hlook]
      unfold setEntry
      exact lookupEntry_cleanup_fresh _ lid _ now (by simp [sevenDaysMs_pos])
  · intro msg hstale herr
    subst herr
    simp only [strmGetHandler, hget]
    rw [if_pos hstale]

/-- C4 witness: at an age of exactly 48 hours the entry is served as is even
though the refresh oracle would fail; one millisecond later the refresh is
attempted and, here, succeeds. -/
theorem strm_staleness_refresh_witness :
    strmGetHandler [("L1", ⟨"https://real-debrid.com/d/L1", "oldUrl", 0, "f", true, 0⟩)] "L1"
        fortyEightHoursMs (.error "down")
      = ⟨.redirect "oldUrl", false,
         [("L1", ⟨"https://real-debrid.com/d/L1", "oldUrl", 0, "f", true, 0⟩)]⟩
    ∧ strmGetHandler [("L1", ⟨"https://real-debrid.com/d/L1", "oldUrl", 0, "f", true, 0⟩)] "L1"
        (fortyEightHoursMs + 1) (.ok "newUrl")
      = ⟨.redirect "newUrl", true,
         nodeUpdateStrmUrl [("L1", ⟨"https://real-debrid.com/d/L1", "oldUrl", 0, "f", true, 0⟩)]
           "L1" "newUrl" (fortyEightHoursMs + 1)⟩ :=
  ⟨(strm_staleness_refresh _ "L1" fortyEightHoursMs
      ⟨"https://real-debrid.com/d/L1", "oldUrl", 0, "f", true, 0⟩ (.error "down")
      (by decide)).1 (by decide),
   ((strm_staleness_refresh _ "L1" (fortyEightHoursMs + 1)
      ⟨"https://real-debrid.com/d/L1", "oldUrl", 0, "f", true, 0⟩ (.ok "newUrl")
      (by decide)).2.1 "newUrl" (by decide) rfl).1⟩

/-! ### C5 — the READY-path effects of processMagnet -/

/-- C5 counterexample: a READY session with one link, resolved by the Hono
app's `processMagnet` with a public caller IP available — the IP is passed
to unrestrict, but no LinkCache entry is written at all; and the same
session through the worker app's `processMagnet`, which writes the
manually-added entry but never passes an IP. -/
theorem ready_path_counterexample :
    honoMagnetReady ⟨"T1", "downloaded", [], ["https://real-debrid.com/d/ABC123"],
        "deadbeef", some "movie.mkv", 1000⟩ (some "1.2.3.4")
      = .ready ⟨"https://real-debrid.com/d/ABC123", some "1.2.3.4", none, some "T1",
          some "movie.mkv", 1000⟩
    ∧ workerMagnetReady ⟨"T1", "downloaded", [], ["https://real-debrid.com/d/ABC123"],
        "deadbeef", some "movie.mkv", 1000⟩
      = .ready ⟨"https://real-debrid.com/d/ABC123", none, some ("ABC123", true), some "T1",
          some "movie.mkv", 1000⟩ := by
  constructor
  · rfl
  · decide

/-- C5 (amended): on READY with at least one link, both pipelines unrestrict
the first link and delete the upstream session, but the claimed effects are
split across them — the worker pipeline writes the LinkCache entry with
`manuallyAdded = true` when a link id can be extracted from the link's path,
reporting the torrent's filename and bytes, while passing no IP; the Hono
pipeline passes the caller's public IP when available but writes no
LinkCache entry, and reports the selected file's `path || name` and
`bytes || size`, falling back to the torrent's aggregate filename and bytes
when no file in the list is marked selected. -/
theorem ready_path_effects :
    (∀ (info : TorrentInfo) (l : String) (ls : List String), info.links = l :: ls →
       workerMagnetReady info
         = .ready ⟨l, none, (extractLinkId l).map (fun lid => (lid, true)), some info.id,
             info.filename, info.bytes⟩)
    ∧ (∀ (info : TorrentInfo) (ip : Option String) (l : String) (ls : List String),
       info.links = l :: ls →
       ∃ r, honoMagnetReady info ip = .ready r
         ∧ r.unrestrictedLink = l ∧ r.unrestrictIp = ip ∧ r.cacheWrite = none
         ∧ r.deletedTorrentId = some info.id
         ∧ (∀ f : TorrentFile, info.files.find? (fun f => f.selected = 1) = some f →
              r.reportFilename = jsStrOr f.path f.name
              ∧ r.reportBytes = jsNumOr f.bytes (jsNumOr f.size 0))
         ∧ (info.files.find? (fun f => f.selected = 1) = none →
              r.reportFilename = info.filename ∧ r.reportBytes = info.bytes))
    ∧ extractLinkId "https://real-debrid.com/d/ABC123" = some "ABC123" := by
  refine ⟨?_, ?_, by decide⟩
  · intro info l ls hlinks
    unfold workerMagnetReady
    rw [hlinks]
    rfl
  · intro info ip l ls hlinks
    refine ⟨⟨l, ip, none, some info.id,
        (match info.files.find? (fun f => f.selected = 1) with
          | some f => jsStrOr f.path f.name
          | none => info.filename),
        (match info.files.find? (fun f => f.selected = 1) with
          | some f => jsNumOr f.bytes (jsNumOr f.size 0)
          | none => info.bytes)⟩, ?_, rfl, rfl, rfl, rfl, ?_, ?_⟩
    · unfold honoMagnetReady
      rw [hlinks]
      rfl
    · intro f hf
      simp [hf]
    · intro hnone
      simp [hnone]

/-- C5 witness: the amended theorem applied to a concrete READY session for
both pipelines; the Hono session carries a file list with a selected file,
whose path and bytes are the reported values. -/
theorem ready_path_effects_witness :
    workerMagnetReady ⟨"T2", "downloaded", [], ["https://real-debrid.com/d/XYZ9"],
        "cafebabe", some "show.mkv", 42⟩
      = .ready ⟨"https://real-debrid.com/d/XYZ9", none,
          (extractLinkId "https://real-debrid.com/d/XYZ9").map (fun lid => (lid, true)),
          some "T2", some "show.mkv", 42⟩
    ∧ ∃ r, honoMagnetReady ⟨"T2", "downloaded",
        [⟨1, some "sample.mkv", some "/show/sample.mkv", some 5, none, 0⟩,
         ⟨2, some "ep2.mkv", some "/show/ep2.mkv", some 777, none, 1⟩],
        ["https://real-debrid.com/d/XYZ9"], "cafebabe", some "show.mkv", 42⟩
        (some "8.8.8.8") = .ready r
        ∧ r.unrestrictedLink = "https://real-debrid.com/d/XYZ9"
        ∧ r.unrestrictIp = some "8.8.8.8" ∧ r.cacheWrite = none
        ∧ r.deletedTorrentId = some "T2"
        ∧ r.reportFilename = some "/show/ep2.mkv" ∧ r.reportBytes = 777 := by
  refine ⟨ready_path_effects.1 _ "https://real-debrid.com/d/XYZ9" [] rfl, ?_⟩
  obtain ⟨r, hr, h1, h2, h3, h4, hsel, hagg⟩ :=
    ready_path_effects.2.1
      ⟨"T2", "downloaded",
        [⟨1, some "sample.mkv", some "/show/sample.mkv", some 5, none, 0⟩,
         ⟨2, some "ep2.mkv", some "/show/ep2.mkv", some 777, none, 1⟩],
        ["https://real-debrid.com/d/XYZ9"], "cafebabe", some "show.mkv", 42⟩
      (some "8.8.8.8") "https://real-debrid.com/d/XYZ9" [] rfl
  obtain ⟨hf1, hf2⟩ :=
    hsel ⟨2, some "ep2.mkv", some "/show/ep2.mkv", some 777, none, 1⟩ (by decide)
  exact ⟨r, hr, h1, h2, h3, h4, by rw [hf1]; decide, by rw [hf2]; decide⟩

/-! ### C6 — the observed-link listing: sort, dedupe, cap -/

theorem dedupeDownloads_sublist (l : List RdDownload) (seen : List Nat) (count : Nat) :
    (dedupeDownloads l seen count).Sublist l := by
  induction l generalizing seen count with
  | nil => simp [dedupeDownloads]
  | cons d rest ih =>
    unfold dedupeDownloads
    by_cases h1 : d.id ∈ seen
    · rw [if_pos h1]
      exact (ih seen count).cons d
    · rw [if_neg h1]
      by_cases h2 : 10 ≤ count + 1
      · rw [if_pos h2]
        exact (List.nil_sublist rest).cons₂ d
      · rw [if_neg h2]
        exact (ih _ _).cons₂ d

theorem dedupeDownloads_length (l : List RdDownload) (seen : List Nat) (count : Nat)
    (h : count ≤ 9) : (dedupeDownloads l seen count).length + count ≤ 10 := by
  induction l generalizing seen count with
  | nil => simpa [dedupeDownloads] using by omega
  | cons d rest ih =>
    unfold dedupeDownloads
    by_cases h1 : d.id ∈ seen
    · rw [if_pos h1]
      exact ih seen count h
    · rw [if_neg h1]
      by_cases h2 : 10 ≤ count + 1
      · rw [if_pos h2]
        simp only [List.length_cons, List.length_nil]
        omega
      · rw [if_neg h2]
        have := ih (d.id :: seen) (count + 1) (by omega)
        simp only [List.length_cons]
        omega

/-- C6: the listing fetches at most 20 feed entries and yields at most 10
unique items; the deduplicated sequence is descending by generation time;
and for two entries with the same id and different timestamps both
list shapes keep exactly the later-timestamped one. -/
theorem downloads_listing_dedupe :
    rdDownloadsFetchLimit = 20
    ∧ (∀ feed : List RdDownload, (getRealDebridDownloads feed).length ≤ 10)
    ∧ (∀ feed : List RdDownload,
       (dedupeDownloads (sortDownloadsDesc feed) [] 0).Pairwise
         (fun a b => b.generated ≤ a.generated))
    ∧ (∀ d₁ d₂ : RdDownload, d₁.id = d₂.id → d₁.generated < d₂.generated →
       getRealDebridDownloads [d₁, d₂] = [⟨d₂.filename, d₂.filesize, d₂.download⟩]
       ∧ getRealDebridWebDAVFiles [d₁, d₂]
         = [⟨d₂.filename ++ ".strm", d₂.download, d₂.download.length, d₂.generated⟩]) := by
  refine ⟨rfl, ?_, ?_, ?_⟩
  · intro feed
    unfold getRealDebridDownloads
    rw [List.length_map]
    have := dedupeDownloads_length (sortDownloadsDesc feed) [] 0 (by omega)
    omega
  · intro feed
    have hsorted : (sortDownloadsDesc feed).Pairwise
        (fun a b : RdDownload => b.generated ≤ a.generated) := by
      haveI : IsTotal RdDownload (fun a b => b.generated ≤ a.generated) :=
        ⟨fun a b => le_total _ _⟩
      haveI : IsTrans RdDownload (fun a b => b.generated ≤ a.generated) :=
        ⟨fun a b c h1 h2 => le_trans h2 h1⟩
      exact List.sorted_insertionSort _ feed
    exact List.Pairwise.sublist (dedupeDownloads_sublist _ [] 0) hsorted
  · intro d₁ d₂ hid hlt
    have hnot : ¬(d₂.generated ≤ d₁.generated) := not_le.mpr hlt
    have hsort : sortDownloadsDesc [d₁, d₂] = [d₂, d₁] := by
      unfold sortDownloadsDesc
      simp [List.insertionSort, List.orderedInsert, hnot]
    have hdedup : dedupeDownloads [d₂, d₁] [] 0 = [d₂] := by
      simp [dedupeDownloads, hid]
    constructor
    · unfold getRealDebridDownloads
      rw [hsort, hdedup]
      rfl
    · unfold getRealDebridWebDAVFiles
      rw [hsort, hdedup]
      rfl

/-- C6 witness: two concrete feed entries with the same id — the composed
listings keep exactly the later one. -/
theorem downloads_listing_dedupe_witness :
    getRealDebridDownloads
        [⟨7, "https://real-debrid.com/d/A", "https://dl.example/a", "a.mkv", 10, 100⟩,
         ⟨7, "https://real-debrid.com/d/B", "https://dl.example/b", "b.mkv", 20, 200⟩]
      = [⟨"b.mkv", 20, "https://dl.example/b"⟩]
    ∧ getRealDebridWebDAVFiles
        [⟨7, "https://real-debrid.com/d/A", "https://dl.example/a", "a.mkv", 10, 100⟩,
         ⟨7, "https://real-debrid.com/d/B", "https://dl.example/b", "b.mkv", 20, 200⟩]
      = [⟨"b.mkv" ++ ".strm", "https://dl.example/b", "https://dl.example/b".length, 200⟩] :=
  downloads_listing_dedupe.2.2.2
    ⟨7, "https://real-debrid.com/d/A", "https://dl.example/a", "a.mkv", 10, 100⟩
    ⟨7, "https://real-debrid.com/d/B", "https://dl.example/b", "b.mkv", 20, 200⟩
    rfl (by decide)

/-! ### C7 — delete-by-filename decoding and forwarding -/

theorem takeWhile_append_all (p : Char → Bool) (xs ys : List Char)
    (h : ∀ c ∈ xs, p c = true) : (xs ++ ys).takeWhile p = xs ++ ys.takeWhile p := by
  induction xs with
  | nil => rfl
  | cons c cs ih =>
    rw [List.cons_append, List.takeWhile_cons, if_pos (h c (by simp)), List.cons_append,
      ih (fun c' hc' => h c' (by simp [hc']))]

theorem dropWhile_append_all (p : Char → Bool) (xs ys : List Char)
    (h : ∀ c ∈ xs, p c = true) : (xs ++ ys).dropWhile p = ys.dropWhile p := by
  induction xs with
  | nil => rfl
  | cons c cs ih =>
    rw [List.cons_append, List.dropWhile_cons, if_pos (h c (by simp))]
    exact ih (fun c' hc' => h c' (by simp [hc']))

theorem matchDeletePattern_exact (h i : List Char)
    (hne : h ≠ []) (hh : ∀ c ∈ h, c ≠ '\x7d')
    (ine : i ≠ []) (hi : ∀ c ∈ i, c ≠ '\x7d') :
    matchDeletePattern (hashTag ++ (h ++ ('\x7d' :: (imdbTag ++ (i ++ closeStrmTail)))))
      = some (h, i) := by
  have hhb : ∀ c ∈ h, decide (c ≠ '\x7d') = true := fun c hc => by simpa using hh c hc
  have hib : ∀ c ∈ i, decide (c ≠ '\x7d') = true := fun c hc => by simpa using hi c hc
  have htake1 : List.take 6 (hashTag ++ (h ++ ('\x7d' :: (imdbTag ++ (i ++ closeStrmTail)))))
      = hashTag := List.take_left' rfl
  have hdrop1 : List.drop 6 (hashTag ++ (h ++ ('\x7d' :: (imdbTag ++ (i ++ closeStrmTail)))))
      = h ++ ('\x7d' :: (imdbTag ++ (i ++ closeStrmTail))) := List.drop_left' rfl
  have htake2 : List.take 6 (imdbTag ++ (i ++ closeStrmTail)) = imdbTag := List.take_left' rfl
  have hdrop2 : List.drop 6 (imdbTag ++ (i ++ closeStrmTail)) = i ++ closeStrmTail :=
    List.drop_left' rfl
  have hpbrace : (decide (('\x7d' : Char) ≠ '\x7d')) = false := by decide
  have hdwc : List.dropWhile (fun c : Char => decide (c ≠ '\x7d')) closeStrmTail
      = closeStrmTail := rfl
  have htwc : List.takeWhile (fun c : Char => decide (c ≠ '\x7d')) closeStrmTail
      = [] := rfl
  simp only [matchDeletePattern, htake1, hdrop1, htake2, hdrop2,
    takeWhile_append_all _ h _ hhb, dropWhile_append_all _ h _ hhb,
    takeWhile_append_all _ i _ hib, dropWhile_append_all _ i _ hib, htwc, hdwc,
    List.takeWhile_cons, List.dropWhile_cons, hpbrace, Bool.false_eq_true, if_false,
    List.append_nil]
  simp [hne, ine]

theorem matchDeletePattern_head_ne (c : Char) (cs : List Char) (hc : c ≠ '\x7b') :
    matchDeletePattern (c :: cs) = none := by
  unfold matchDeletePattern
  rw [if_neg]
  intro heq
  rw [show (6 : Nat) = 5 + 1 from rfl, List.take_succ_cons] at heq
  have h2 : hashTag = '\x7b' :: "hash-".toList := rfl
  rw [h2] at heq
  exact hc (List.head_eq_of_cons_eq heq)

theorem scanDeletePattern_cons_none (c : Char) (cs : List Char)
    (hm : matchDeletePattern (c :: cs) = none) :
    scanDeletePattern (c :: cs) = scanDeletePattern cs := by
  rw [scanDeletePattern, hm]

theorem scanDeletePattern_append_clean (t rest : List Char)
    (ht : ∀ c ∈ t, c ≠ '\x7b') :
    scanDeletePattern (t ++ rest) = scanDeletePattern rest := by
  induction t with
  | nil => rfl
  | cons c t' ih =>
    rw [List.cons_append,
      scanDeletePattern_cons_none c (t' ++ rest) (matchDeletePattern_head_ne c _ (ht c (by simp))),
      ih (fun c' hc' => ht c' (by simp [hc']))]

theorem scanDeletePattern_of_match (c : Char) (cs : List Char) (r : List Char × List Char)
    (hm : matchDeletePattern (c :: cs) = some r) :
    scanDeletePattern (c :: cs) = some r := by
  rw [scanDeletePattern, hm]

/-- C7: a filename whose tail embeds a non-empty brace-free hash and imdb id
in the marker pattern decodes to exactly those two strings (the title prefix
must not contain an open brace, which would start an earlier regex match);
on a decoded filename the handler forwards exactly the decoded pair, maps
upstream success to a 204 no-content and forwards an upstream failure's
status and body; a filename that does not match yields the 400 invalid-format
response without any upstream call. -/
theorem dmm_delete_semantics :
    (∀ t h i : List Char,
       (∀ c ∈ t, c ≠ '\x7b') → h ≠ [] → (∀ c ∈ h, c ≠ '\x7d') →
       i ≠ [] → (∀ c ∈ i, c ≠ '\x7d') →
       parseDmmDeleteFilename
           (String.mk (t ++ (hashTag ++ (h ++ ('\x7d' :: (imdbTag ++ (i ++ closeStrmTail)))))))
         = some (String.mk h, String.mk i))
    ∧ (∀ (filename h i : String) (upstream : Except (Nat × String) Unit),
       parseDmmDeleteFilename filename = some (h, i) →
       (deleteDmmCast filename upstream).upstreamCall = some (h, i)
       ∧ (upstream = .ok () → (deleteDmmCast filename upstream).result = .noContent
           ∧ dmmDeleteStatus (deleteDmmCast filename upstream).result = 204)
       ∧ (∀ (status : Nat) (body : String), upstream = .error (status, body) →
           (deleteDmmCast filename upstream).result
             = .upstreamError status ("Delete failed: " ++ body)
           ∧ dmmDeleteStatus (deleteDmmCast filename upstream).result = status))
    ∧ (∀ (filename : String) (upstream : Except (Nat × String) Unit),
       parseDmmDeleteFilename filename = none →
       deleteDmmCast filename upstream
         = ⟨.invalidFormat "Invalid filename format - missing hash or imdbId encoding", none⟩
       ∧ dmmDeleteStatus (deleteDmmCast filename upstream).result = 400) := by
  refine ⟨?_, ?_, ?_⟩
  · intro t h i ht hne hh ine hi
    unfold parseDmmDeleteFilename
    have htl : (String.mk (t ++ (hashTag ++ (h ++ ('\x7d' :: (imdbTag ++ (i ++ closeStrmTail))))))).toList
        = t ++ (hashTag ++ (h ++ ('\x7d' :: (imdbTag ++ (i ++ closeStrmTail))))) := rfl
    have hshape : hashTag ++ (h ++ ('\x7d' :: (imdbTag ++ (i ++ closeStrmTail))))
        = '\x7b' :: ("hash-".toList ++ (h ++ ('\x7d' :: (imdbTag ++ (i ++ closeStrmTail))))) :=
      rfl
    rw [htl, scanDeletePattern_append_clean _ _ ht, hshape,
      scanDeletePattern_of_match '\x7b' _ (h, i)
        (by exact matchDeletePattern_exact h i hne hh ine hi)]
    rfl
  · intro filename h i upstream hparse
    unfold deleteDmmCast
    rw [hparse]
    refine ⟨?_, ?_, ?_⟩
    · cases upstream with
      | ok u => rfl
      | error e => rcases e with ⟨s, b⟩; rfl
    · intro hok; subst hok; exact ⟨rfl, rfl⟩
    · intro status body herr; subst herr; exact ⟨rfl, rfl⟩
  · intro filename upstream hparse
    unfold deleteDmmCast
    rw [hparse]
    exact ⟨rfl, rfl⟩

/-- C7 witness: the spec's two concrete deletion scenarios. -/
theorem dmm_delete_semantics_witness :
    (deleteDmmCast "Title\x7bhash-abc123\x7d\x7bimdb-tt000111\x7d.strm"
        (.ok ())).upstreamCall = some ("abc123", "tt000111")
    ∧ (deleteDmmCast "Title\x7bhash-abc123\x7d\x7bimdb-tt000111\x7d.strm" (.ok ())).result
        = .noContent
    ∧ deleteDmmCast "noMetadata.strm" (.ok ())
        = ⟨.invalidFormat "Invalid filename format - missing hash or imdbId encoding", none⟩ :=
  ⟨(dmm_delete_semantics.2.1 _ "abc123" "tt000111" (.ok ()) (by decide)).1,
   ((dmm_delete_semantics.2.1 _ "abc123" "tt000111" (.ok ()) (by decide)).2.1 rfl).1,
   (dmm_delete_semantics.2.2 "noMetadata.strm" (.ok ()) (by decide)).1⟩

/-! ### C8 — the casted-link listing -/

/-- C8: the casted-link listing contains exactly the formatted feed entries
whose update time is within the last 7 days (entries without an update time,
or updated before `now - 7 days`, are excluded), it is sorted descending by
update time, and each entry's synthetic filename is the title followed by
the brace-delimited hash and imdb markers and the `.strm` suffix. -/
theorem casted_listing (feed : List DmmLink) (now : Int) :
    (∀ item ∈ getCastedLinks feed now,
       ∃ l ∈ feed, castedQualifies l now = true ∧ item = formatCasted l)
    ∧ (∀ l ∈ feed, castedQualifies l now = true → formatCasted l ∈ getCastedLinks feed now)
    ∧ (getCastedLinks feed now).Pairwise (fun a b => b.updatedAt ≤ a.updatedAt)
    ∧ (∀ (l : DmmLink) (t : Int), l.updatedAt = some t →
       (castedQualifies l now = true ↔ now - sevenDaysMs ≤ t))
    ∧ (∀ l : DmmLink, l.updatedAt = none → castedQualifies l now = false)
    ∧ (∀ l : DmmLink, (formatCasted l).strmFilename
       = castedTitle l ++ "\x7bhash-" ++ l.hash ++ "\x7d\x7bimdb-" ++ l.imdbId ++ "\x7d.strm") := by
  have hperm := List.perm_insertionSort
    (fun a b : DmmLink => b.updatedAt.getD 0 ≤ a.updatedAt.getD 0)
    (feed.filter (fun l => castedQualifies l now))
  refine ⟨?_, ?_, ?_, ?_, ?_, fun l => rfl⟩
  · intro item hitem
    unfold getCastedLinks at hitem
    rcases List.mem_map.mp hitem with ⟨x, hx, rfl⟩
    have hxf := hperm.mem_iff.mp hx
    exact ⟨x, List.mem_of_mem_filter hxf, by simpa using List.of_mem_filter hxf, rfl⟩
  · intro l hl hq
    unfold getCastedLinks
    exact List.mem_map_of_mem _ (hperm.mem_iff.mpr (List.mem_filter.mpr ⟨hl, hq⟩))
  · unfold getCastedLinks
    rw [List.pairwise_map]
    have hs : (List.insertionSort (fun a b : DmmLink => b.updatedAt.getD 0 ≤ a.updatedAt.getD 0)
        (feed.filter (fun l => castedQualifies l now))).Pairwise
        (fun a b : DmmLink => b.updatedAt.getD 0 ≤ a.updatedAt.getD 0) := by
      haveI : IsTotal DmmLink (fun a b => b.updatedAt.getD 0 ≤ a.updatedAt.getD 0) :=
        ⟨fun a b => le_total _ _⟩
      haveI : IsTrans DmmLink (fun a b => b.updatedAt.getD 0 ≤ a.updatedAt.getD 0) :=
        ⟨fun a b c h1 h2 => le_trans h2 h1⟩
      exact List.sorted_insertionSort _ _
    exact hs.imp (fun h => h)
  · intro l t hupd
    unfold castedQualifies
    rw [hupd]
    simp
  · intro l hupd
    unfold castedQualifies
    rw [hupd]

/-- C8 witness: a qualifying concrete feed entry appears formatted in the
listing, and a stale and a timestamp-less entry are excluded. -/
theorem casted_listing_witness :
    formatCasted ⟨"https://cdn.example/path/Title.mkv", some "Title", "abc", "tt1", some 600⟩
        ∈ getCastedLinks
          [⟨"https://cdn.example/path/Title.mkv", some "Title", "abc", "tt1", some 600⟩] 1000
    ∧ castedQualifies ⟨"u", some "Old", "h2", "tt2", some (-604800000)⟩ 1 = false
    ∧ castedQualifies ⟨"u", some "NoTime", "h3", "tt3", none⟩ 1000 = false :=
  ⟨(casted_listing _ 1000).2.1 _ (by simp) (by decide),
   by
     have h := ((casted_listing [] 1).2.2.2.1
       ⟨"u", some "Old", "h2", "tt2", some (-604800000)⟩ (-604800000) rfl)
     revert h
     decide,
   (casted_listing [] 1000).2.2.2.2.1 ⟨"u", some "NoTime", "h3", "tt3", none⟩ rfl⟩

/-! ### C10 — the legacy WebDAV visibility rule -/

theorem legacyDav_recents_mem (l : List RdDownload) (st : StrmCache × List String) (now : Int)
    (lid : String) :
    (lid ∈ (l.foldl (fun acc d => legacyDavWriteStep acc d now) st).2
      ↔ lid ∈ st.2 ∨ ∃ d ∈ l, extractLinkId d.link = some lid) := by
  induction l generalizing st with
  | nil => simp
  | cons d rest ih =>
    rw [List.foldl_cons, ih]
    cases hx : extractLinkId d.link with
    | none => simp [legacyDavWriteStep, hx]
    | some lid' =>
      simp only [legacyDavWriteStep, hx, List.mem_cons]
      constructor
      · rintro ((rfl | h) | ⟨d', hd', hdl'⟩)
        · exact Or.inr ⟨d, Or.inl rfl, hx⟩
        · exact Or.inl h
        · exact Or.inr ⟨d', Or.inr hd', hdl'⟩
      · rintro (h | ⟨d', hd', hdl'⟩)
        · exact Or.inl (Or.inr h)
        · rcases hd' with rfl | hd''
          · rw [hx] at hdl'
            exact Or.inl (Or.inl (Option.some.inj hdl').symm)
          · exact Or.inr ⟨d', hd'', hdl'⟩

/-- C10: after the passive write pass, a cached entry with an extractable
link id appears in the legacy WebDAV listing exactly when that id is among
the ids extracted from the recent-3 downloads feed, or the entry is manually
added and strictly younger than 7 days; the listing is sorted by
`generatedAt` descending; and the recent-id set is exactly the set of ids
extractable from the fetched downloads. -/
theorem legacy_webdav_visibility (cache : StrmCache) (downloads : List RdDownload) (now : Int) :
    (∀ f ∈ getWebDAVFiles cache downloads now,
       ∃ e ∈ nodeGetAllStrmEntries (legacyDavCacheAndRecents cache downloads now).1,
       ∃ lid, extractLinkId e.originalLink = some lid
         ∧ legacyDavVisible (legacyDavCacheAndRecents cache downloads now).2 e lid now = true
         ∧ f = legacyDavFileOf e lid)
    ∧ (∀ e ∈ nodeGetAllStrmEntries (legacyDavCacheAndRecents cache downloads now).1,
       ∀ lid, extractLinkId e.originalLink = some lid →
       legacyDavVisible (legacyDavCacheAndRecents cache downloads now).2 e lid now = true →
       legacyDavFileOf e lid ∈ getWebDAVFiles cache downloads now)
    ∧ (getWebDAVFiles cache downloads now).Pairwise (fun a b => b.modified ≤ a.modified)
    ∧ (∀ (e : LinkEntry) (lid : String) (recents : List String),
       legacyDavVisible recents e lid now = true
         ↔ (lid ∈ recents ∨ (e.manuallyAdded = true ∧ now - e.generatedAt < sevenDaysMs)))
    ∧ (∀ lid, lid ∈ (legacyDavCacheAndRecents cache downloads now).2
         ↔ ∃ d ∈ downloads, extractLinkId d.link = some lid) := by
  have hperm := List.perm_insertionSort (fun a b : LegacyDavFile => b.modified ≤ a.modified)
    ((nodeGetAllStrmEntries (legacyDavCacheAndRecents cache downloads now).1).filterMap (fun e =>
      match extractLinkId e.originalLink with
      | none => none
      | some lid =>
        if legacyDavVisible (legacyDavCacheAndRecents cache downloads now).2 e lid now then
          some (legacyDavFileOf e lid)
        else none))
  refine ⟨?_, ?_, ?_, ?_, ?_⟩
  · intro f hf
    simp only [getWebDAVFiles] at hf
    have hf2 := hperm.mem_iff.mp hf
    rcases List.mem_filterMap.mp hf2 with ⟨e, he, hge⟩
    refine ⟨e, he, ?_⟩
    rcases hx : extractLinkId e.originalLink with _ | lid
    · rw [hx] at hge
      exact absurd hge (by simp)
    · simp only [hx] at hge
      by_cases hv : legacyDavVisible (legacyDavCacheAndRecents cache downloads now).2 e lid now
        = true
      · rw [if_pos hv] at hge
        exact ⟨lid, rfl, hv, (Option.some.inj hge).symm⟩
      · rw [if_neg hv] at hge
        exact absurd hge (by simp)
  · intro e he lid hx hv
    simp only [getWebDAVFiles]
    refine hperm.mem_iff.mpr (List.mem_filterMap.mpr ⟨e, he, ?_⟩)
    simp only [hx]
    rw [if_pos hv]
  · simp only [getWebDAVFiles]
    haveI : IsTotal LegacyDavFile (fun a b => b.modified ≤ a.modified) :=
      ⟨fun a b => le_total _ _⟩
    haveI : IsTrans LegacyDavFile (fun a b => b.modified ≤ a.modified) :=
      ⟨fun a b c h1 h2 => le_trans h2 h1⟩
    exact List.sorted_insertionSort _ _
  · intro e lid recents
    unfold legacyDavVisible
    simp [Bool.or_eq_true, Bool.and_eq_true, decide_eq_true_eq]
  · intro lid
    unfold legacyDavCacheAndRecents
    rw [legacyDav_recents_mem]
    have hp := List.perm_insertionSort (fun a b : RdDownload => b.generated ≤ a.generated)
      downloads
    simp only [List.not_mem_nil, false_or]
    constructor
    · rintro ⟨d, hd, hdl⟩
      exact ⟨d, hp.mem_iff.mp hd, hdl⟩
    · rintro ⟨d, hd, hdl⟩
      exact ⟨d, hp.mem_iff.mpr hd, hdl⟩

/-- C10 witness: a concrete manually added fresh entry is listed even with
an empty downloads feed, and the visibility rule evaluated concretely. -/
theorem legacy_webdav_visibility_witness :
    legacyDavFileOf ⟨"https://real-debrid.com/d/L1", "u", 500, "movie.mkv", true, 0⟩ "L1"
        ∈ getWebDAVFiles [("L1", ⟨"https://real-debrid.com/d/L1", "u", 500, "movie.mkv", true, 0⟩)]
          [] 1000
    ∧ legacyDavVisible [] ⟨"o", "u", 0, "f", false, 0⟩ "X" 1000 = false :=
  ⟨(legacy_webdav_visibility
      [("L1", ⟨"https://real-debrid.com/d/L1", "u", 500, "movie.mkv", true, 0⟩)] [] 1000).2.1
      ⟨"https://real-debrid.com/d/L1", "u", 500, "movie.mkv", true, 0⟩ (by decide) "L1"
      (by decide) (by decide),
   by decide⟩

end RdCast
